import Mathlib

/-!
Verification development for the real-time communication core of the
UNNAMED_PROJECT backend.

The definitions below are a shallow embedding of
`backend/app/api/endpoints/communication.py` and
`backend/app/models/actions.py`:

* Python `dict` objects are embedded as insertion-ordered association
  lists with the helpers `dictLookup`, `dictSet`, `dictErase` (a key is
  unique in every state we build, so erasing the first occurrence matches
  `del`).
* `uuid.uuid4()` handle minting is embedded as a monotone counter
  (`next_id`), which preserves the only properties used: freshness and
  process-uniqueness.
* `datetime` values are embedded as abstract `Nat` clock readings; pure
  wall-clock timestamp fields that no branch of the code reads
  (`BaseAction.timestamp`, `UserMessage.timestamp`, `AIResponse.timestamp`,
  `WebSocketMessage.timestamp`) are omitted.
* the untyped `Dict[str, Any]` metadata fields (`BaseAction.metadata`,
  `SearchAction.results`, `WeatherAction.forecast`) are omitted: no code
  path of the communication core reads or writes them with non-default
  values.
* Python floats are embedded as scaled integers (`confidence_score` in
  hundredths, temperatures as `Int`), which no claim inspects
  arithmetically.
-/

namespace UnnamedProject

/-! Association-list model of Python dicts. -/

/-- Lookup in an insertion-ordered association list: first entry with the
key, as in Python `d[k]` / `k in d`. -/
def dictLookup {K V : Type} [DecidableEq K] (k : K) : List (K × V) → Option V
  | [] => none
  | (a, b) :: rest => if a = k then some b else dictLookup k rest

/-- Python `d[k] = v`: replace the value of the first entry with key `k`,
or append a fresh entry at the end (insertion order). -/
def dictSet {K V : Type} [DecidableEq K] (k : K) (v : V) : List (K × V) → List (K × V)
  | [] => [(k, v)]
  | (a, b) :: rest => if a = k then (k, v) :: rest else (a, b) :: dictSet k v rest

/-- Python `del d[k]` on a dict whose keys are unique: remove the first
entry with key `k`. -/
def dictErase {K V : Type} [DecidableEq K] (k : K) : List (K × V) → List (K × V)
  | [] => []
  | (a, b) :: rest => if a = k then rest else (a, b) :: dictErase k rest

/-- Python substring containment `pat in s` on element lists. -/
def listContainsSub {α : Type} [DecidableEq α] : List α → List α → Bool
  | _, [] => true
  | [], _ :: _ => false
  | a :: as, p :: ps => (p :: ps).isPrefixOf (a :: as) || listContainsSub as (p :: ps)

/-- Python `pat in s` for strings. -/
def strContains (s pat : String) : Bool := listContainsSub s.data pat.data

/-- Python `s.lower()` restricted to the ASCII range, which is the identity
on the Hangul keywords the code matches (as CPython is on those code
points). -/
def strLower (s : String) : String := String.mk (s.data.map Char.toLower)

/-! Data model from `backend/app/models/actions.py`. -/

/-- The `ActionType` enumeration: the fourteen action kinds
(`actions.py`, lines 12-27). -/
inductive ActionType
  | text
  | music
  | schedule
  | reminder
  | search
  | weather
  | news
  | call
  | message
  | email
  | note
  | timer
  | alarm
  | calculate
deriving DecidableEq, Repr

/-- All fourteen members of `ActionType`, in declaration order. -/
def actionTypeAll : List ActionType :=
  [.text, .music, .schedule, .reminder, .search, .weather, .news, .call,
   .message, .email, .note, .timer, .alarm, .calculate]

/-- The `ActionBlock` union (`actions.py`, lines 39-143): one constructor
per pydantic subclass of `BaseAction` occurring in the union, carrying the
common fields `title`, `description` plus that variant's own field set.
Each pydantic class pins its `type` field with a `Literal` default, so the
discriminant is a function of the constructor (`ActionBlock.actionType`
below). -/
inductive ActionBlock
  | textA (title : String) (description : Option String) (content : String)
      (is_streaming : Bool)
  | musicA (title : String) (description : Option String) (song_title : String)
      (artist : Option String) (album : Option String) (duration : Option Nat)
      (url : Option String) (thumbnail : Option String)
  | scheduleA (title : String) (description : Option String) (event_title : String)
      (start_time : Nat) (end_time : Option Nat) (location : Option String)
      (attendees : List String) (reminder_minutes : Option Nat)
  | reminderA (title : String) (description : Option String) (reminder_text : String)
      (remind_at : Nat) (is_recurring : Bool) (recurrence_pattern : Option String)
  | searchA (title : String) (description : Option String) (query : String)
      (search_type : String)
  | weatherA (title : String) (description : Option String) (location : String)
      (current_temp : Option Int) (condition : Option String)
      (humidity : Option Nat) (wind_speed : Option Int)
  | timerA (title : String) (description : Option String) (duration_seconds : Nat)
      (timer_name : Option String) (is_active : Bool)
  | calculateA (title : String) (description : Option String) (expression : String)
      (result : String)
deriving DecidableEq, Repr

/-- The `type` discriminant each variant pins via its `Literal` default. -/
def ActionBlock.actionType : ActionBlock → ActionType
  | .textA .. => .text
  | .musicA .. => .music
  | .scheduleA .. => .schedule
  | .reminderA .. => .reminder
  | .searchA .. => .search
  | .weatherA .. => .weather
  | .timerA .. => .timer
  | .calculateA .. => .calculate

/-- Index of the constructor (variant shape) of an `ActionBlock`. -/
def ActionBlock.variantIndex : ActionBlock → Nat
  | .textA .. => 0
  | .musicA .. => 1
  | .scheduleA .. => 2
  | .reminderA .. => 3
  | .searchA .. => 4
  | .weatherA .. => 5
  | .timerA .. => 6
  | .calculateA .. => 7

/-- The `song_title` field of a music variant, `none` on other variants. -/
def ActionBlock.songTitle : ActionBlock → Option String
  | .musicA _ _ song_title _ _ _ _ _ => some song_title
  | _ => none

/-- Message kind `Literal["text", "voice", "image"]` of `UserMessage`. -/
inductive MessageKind
  | text
  | voice
  | image
deriving DecidableEq, Repr

/-- `UserMessage` (`actions.py`, lines 112-118), minus the unread
wall-clock `timestamp` field. -/
structure UserMessage where
  content : String
  message_type : MessageKind
  user_id : Option String
  session_id : Option String
deriving DecidableEq, Repr

/-- `AIResponse` (`actions.py`, lines 121-128), minus the unread
wall-clock `timestamp` field; `confidence_score` in hundredths. -/
structure AIResponse where
  message_id : String
  response_text : String
  actions : List ActionBlock
  confidence_score : Option Nat
  processing_time_ms : Option Nat
deriving DecidableEq, Repr

/-! Mock response generator, `communication.py` lines 82-136. -/

/-- `generate_ai_response` (`communication.py`, lines 82-136): keyword
dispatch on the lowered content. The `uuid.uuid4()` message id is passed
in as `freshId`, and `datetime.now()` (read only by the schedule branch's
`start_time`) as `now`. -/
def generate_ai_response (freshId : String) (now : Nat)
    (user_message : UserMessage) : AIResponse :=
  let content := strLower user_message.content
  if strContains content "음악" || strContains content "노래" then
    { message_id := freshId
      response_text := "음악을 틀어드릴게요!"
      actions := [.musicA "음악 재생" (some "요청하신 음악을 재생합니다")
        "좋은 음악" (some "AI 아티스트") none (some 180)
        (some "https://example.com/music/sample.mp3") none]
      confidence_score := some 85
      processing_time_ms := some 500 }
  else if strContains content "일정" || strContains content "스케줄" then
    { message_id := freshId
      response_text := "일정을 확인하고 등록해드릴게요!"
      actions := [.scheduleA "일정 등록" (some "새로운 일정을 등록합니다")
        "새로운 일정" now none (some "회의실 A") [] none]
      confidence_score := some 85
      processing_time_ms := some 500 }
  else if strContains content "안녕" || strContains (strLower content) "hello" then
    { message_id := freshId
      response_text := "안녕하세요! 저는 당신의 AI 어시스턴트입니다. 무엇을 도와드릴까요?"
      actions := [.textA "인사 응답" (some "사용자에게 인사를 전합니다")
        "안녕하세요! 저는 당신의 AI 어시스턴트입니다. 무엇을 도와드릴까요?" false]
      confidence_score := some 85
      processing_time_ms := some 500 }
  else
    let response_text := "\x27" ++ user_message.content ++
      "\x27에 대해 이해했습니다. 더 구체적으로 말씀해 주시면 도움을 드릴 수 있습니다."
    { message_id := freshId
      response_text := response_text
      actions := [.textA "일반 응답" (some "사용자 메시지에 대한 일반적인 응답")
        response_text false]
      confidence_score := some 85
      processing_time_ms := some 500 }

/-- The response-pipeline handle step at `communication.py` line 185:
`ai_response = await generate_ai_response(user_msg)`. The call site is a
bare delegation to the generator capability — it performs no timing
measurement and no post-processing of the returned value. -/
def pipelineHandle (gen : UserMessage → AIResponse) (m : UserMessage) : AIResponse :=
  gen m

/-! Connection registry, `communication.py` lines 29-76.
Transports (accepted WebSocket objects) are embedded as opaque `Nat`
tokens; connection ids as `Nat` minted from the `next_id` counter. -/

/-- `ConnectionManager` state: `active_connections : connection_id →
websocket`, `user_sessions : user_id → connection_id`, plus the fresh-id
counter standing in for `uuid.uuid4()`. -/
structure ConnectionManager where
  active_connections : List (Nat × Nat)
  user_sessions : List (String × Nat)
  next_id : Nat
deriving DecidableEq, Repr

/-- The state of the module-level `manager` before any connection. -/
def ConnectionManager.empty : ConnectionManager := ⟨[], [], 0⟩

/-- `ConnectionManager.connect` (lines 34-43): mint a fresh connection id,
store it in `active_connections`, and when an identity is supplied,
overwrite `user_sessions[user_id]` with the new id. Returns the minted id
and the new state. -/
def ConnectionManager.connect (m : ConnectionManager) (websocket : Nat)
    (user_id : Option String) : Nat × ConnectionManager :=
  let connection_id := m.next_id
  let active := dictSet connection_id websocket m.active_connections
  let sessions :=
    match user_id with
    | some u => dictSet u connection_id m.user_sessions
    | none => m.user_sessions
  (connection_id, ⟨active, sessions, m.next_id + 1⟩)

/-- `ConnectionManager.disconnect` (lines 45-57): when the id is live,
delete it from `active_connections` and delete the first `user_sessions`
entry whose value is that id (the `for`/`break` scan). A no-op on an
absent id. -/
def ConnectionManager.disconnect (m : ConnectionManager)
    (connection_id : Nat) : ConnectionManager :=
  if (dictLookup connection_id m.active_connections).isSome then
    let active := dictErase connection_id m.active_connections
    let sessions :=
      match m.user_sessions.find? (fun p => p.2 == connection_id) with
      | some p => dictErase p.1 m.user_sessions
      | none => m.user_sessions
    ⟨active, sessions, m.next_id⟩
  else m

/-- `send_personal_message` (lines 59-70). The environment decides
whether the transport write raises (`send_ok`); a failed write triggers
`disconnect` and returns `false`. -/
def ConnectionManager.send_personal_message (m : ConnectionManager)
    (send_ok : Bool) (connection_id : Nat) : Bool × ConnectionManager :=
  if (dictLookup connection_id m.active_connections).isSome then
    if send_ok then (true, m)
    else (false, m.disconnect connection_id)
  else (false, m)

/-- `send_to_user` (lines 72-76): resolve the identity and delegate. -/
def ConnectionManager.send_to_user (m : ConnectionManager) (send_ok : Bool)
    (user_id : String) : Bool × ConnectionManager :=
  match dictLookup user_id m.user_sessions with
  | some connection_id => m.send_personal_message send_ok connection_id
  | none => (false, m)

/-- One registry operation, with environment choices (`websocket` token,
write success) made explicit. -/
inductive RegOp
  | connectOp (websocket : Nat) (user_id : Option String)
  | disconnectOp (connection_id : Nat)
  | sendPersonalOp (send_ok : Bool) (connection_id : Nat)
  | sendToUserOp (send_ok : Bool) (user_id : String)
deriving DecidableEq, Repr

/-- Apply one registry operation (state part only). -/
def applyOp (m : ConnectionManager) : RegOp → ConnectionManager
  | .connectOp ws u => (m.connect ws u).2
  | .disconnectOp c => m.disconnect c
  | .sendPersonalOp ok c => (m.send_personal_message ok c).2
  | .sendToUserOp ok u => (m.send_to_user ok u).2

/-- Run a sequence of registry operations from the empty registry. -/
def runOps (ops : List RegOp) : ConnectionManager :=
  ops.foldl applyOp ConnectionManager.empty

/-- The snapshot of `get_connection_status` (lines 285-294):
live-handle count, live-identity count, handle list, identity list. -/
def get_connection_status (m : ConnectionManager) :
    Nat × Nat × List Nat × List String :=
  (m.active_connections.length, m.user_sessions.length,
   m.active_connections.map Prod.fst, m.user_sessions.map Prod.fst)

/-- Registry well-formedness: every stored connection id is below the
fresh-id counter, identity keys and identity values are duplicate-free,
and every identity maps to a live handle. Every state reachable by
`runOps` satisfies it (proved below). -/
def Inv (m : ConnectionManager) : Prop :=
  (∀ p ∈ m.active_connections, p.1 < m.next_id) ∧
  (∀ p ∈ m.user_sessions, p.2 < m.next_id) ∧
  (m.user_sessions.map Prod.fst).Nodup ∧
  (m.user_sessions.map Prod.snd).Nodup ∧
  (∀ p ∈ m.user_sessions, (dictLookup p.2 m.active_connections).isSome)

instance (m : ConnectionManager) : Decidable (Inv m) := by
  unfold Inv; infer_instance

/-! Connection session receive loop, `communication.py` lines 162-220.
One iteration receives a raw frame, parses it (`json.loads`, then
`WebSocketMessage(**message_data)`, then for a user message
`UserMessage(**ws_message.data)`), and branches on the envelope kind.
`Frame` records the parse outcome the control flow branches on: the
deserializer itself (json + pydantic validation) is external to the
embedded core, so a frame is embedded as the classification it produces. -/

/-- Parse outcome of one raw inbound frame. -/
inductive Frame
  | notJson (raw : String)
  | invalidEnvelope (excMsg : String)
  | userMessageFrame (d : UserMessage)
  | invalidUserMessage (excMsg : String)
  | systemPing
  | systemOther
  | otherKind
deriving DecidableEq, Repr

/-- Frames whose processing raises: `json.JSONDecodeError` on `notJson`,
the generic `except Exception` on pydantic validation failures. -/
def Frame.failing : Frame → Bool
  | .notJson _ => true
  | .invalidEnvelope _ => true
  | .invalidUserMessage _ => true
  | _ => false

/-- One outbound envelope written by the session (a serialized
`WebSocketMessage`), minus the unread wall-clock timestamp. -/
inductive OutEnvelope
  | systemMsg (message : String) (connection_id : String) (user_id : Option String)
  | typing (is_typing : Bool)
  | aiResponse (r : AIResponse)
  | errorEnv (error : String) (received_data : Option String)
  | pongMsg
deriving DecidableEq, Repr

/-- Whether an outbound envelope has kind `error`. -/
def OutEnvelope.isError : OutEnvelope → Bool
  | .errorEnv _ _ => true
  | _ => false

/-- Project the `AIResponse` out of an `ai_response` envelope. -/
def OutEnvelope.getAiResponse : OutEnvelope → Option AIResponse
  | .aiResponse r => some r
  | _ => none

/-- Lines 172-173: `user_msg = UserMessage(**ws_message.data)` followed by
`user_msg.user_id = user_id` — the session's path identity overwrites
whatever `user_id` the inbound payload carried. -/
def attachIdentity (session_user : Option String) (d : UserMessage) : UserMessage :=
  { d with user_id := session_user }

/-- One loop iteration of `websocket_endpoint` (lines 162-220): the
envelopes sent in response to one received frame, in send order. The
generator capability is passed as `gen` (instantiated by
`generate_ai_response` at line 185). -/
def processFrame (gen : UserMessage → AIResponse) (session_user : Option String) :
    Frame → List OutEnvelope
  | .notJson raw => [.errorEnv "잘못된 JSON 형식입니다" (some raw)]
  | .invalidEnvelope e => [.errorEnv ("메시지 처리 중 오류 발생: " ++ e) none]
  | .userMessageFrame d =>
      [.typing true, .typing false,
       .aiResponse (pipelineHandle gen (attachIdentity session_user d))]
  | .invalidUserMessage e => [.errorEnv ("메시지 처리 중 오류 발생: " ++ e) none]
  | .systemPing => [.pongMsg]
  | .systemOther => []
  | .otherKind => []

/-- The receive loop over a finite prefix of inbound frames: frames are
processed strictly one at a time in arrival order (the loop body awaits
the pipeline before receiving again), so the outbound trace is the
concatenation of the per-frame traces. -/
def sessionRun (gen : UserMessage → AIResponse) (session_user : Option String)
    (frames : List Frame) : List OutEnvelope :=
  frames.flatMap (processFrame gen session_user)

/-! Streaming publisher, `communication.py` lines 240-271
(`event_generator` inside `sse_endpoint`). The client-side liveness probe
`await request.is_disconnected()` is an oracle `disconnected : Nat → Bool`
indexed by probe number, and `datetime.now()` an oracle `clock : Nat → Nat`
indexed by emission number. The infinite `while True` loop is observed up
to `fuel` iterations. -/

/-- One SSE event, as serialized into a `data: <json>` line. -/
inductive SseEvent
  | connected (user_id : String) (timestamp : Nat)
  | statusUpdate (counter : Nat) (timestamp : Nat) (user_id : String)
deriving DecidableEq, Repr

/-- The `while True` body: probe, and only if still connected increment
the counter, emit, and loop (the 5-second sleep is a suspension with no
observable effect on the event trace). -/
def sseLoop (user_id : String) (disconnected : Nat → Bool) (clock : Nat → Nat)
    (counter : Nat) : Nat → List SseEvent
  | 0 => []
  | fuel + 1 =>
      if disconnected counter then []
      else
        .statusUpdate (counter + 1) (clock (counter + 1)) user_id ::
          sseLoop user_id disconnected clock (counter + 1) fuel

/-- `event_generator` (lines 240-267, exception-free path): the
`connected` event first, then the probed update loop from counter 0. -/
def event_generator (user_id : String) (disconnected : Nat → Bool)
    (clock : Nat → Nat) (fuel : Nat) : List SseEvent :=
  .connected user_id (clock 0) :: sseLoop user_id disconnected clock 0 fuel

/-- The counters carried by the `status_update` events of a trace, in
emission order. -/
def sseCounters (events : List SseEvent) : List Nat :=
  events.filterMap fun e =>
    match e with
    | .statusUpdate k _ _ => some k
    | _ => none

/-! Concrete inputs used by the witnesses and counterexamples. -/

/-- The generator capability as actually wired at line 185, at a fixed
minted id and clock reading. -/
def demoGen : UserMessage → AIResponse := generate_ai_response "m-1" 0

/-- A concrete inbound `user_message` payload. -/
def demoMsg : UserMessage :=
  { content := "안녕", message_type := .text, user_id := none, session_id := none }

/-- A concrete inbound payload containing a music keyword. -/
def demoMusicMsg : UserMessage :=
  { content := "신나는 노래 틀어줘", message_type := .text,
    user_id := some "mallory", session_id := none }

/-- A generator capability that leaves `processing_time_ms` unset. -/
def genNoTiming : UserMessage → AIResponse := fun _ =>
  { message_id := "g-0", response_text := "ok", actions := [],
    confidence_score := none, processing_time_ms := none }

/-- The music `ActionBlock` built by the music branch of
`generate_ai_response` (lines 92-99). -/
def musicBlock : ActionBlock :=
  .musicA "음악 재생" (some "요청하신 음악을 재생합니다") "좋은 음악"
    (some "AI 아티스트") none (some 180)
    (some "https://example.com/music/sample.mp3") none

/-! Helper lemmas about the dict model. -/

theorem dictLookup_dictSet {K V : Type} [DecidableEq K] (k k2 : K) (v : V)
    (l : List (K × V)) :
    dictLookup k (dictSet k2 v l) = if k = k2 then some v else dictLookup k l := by
  induction l with
  | nil =>
    by_cases h : k = k2
    · subst h; simp [dictSet, dictLookup]
    · simp [dictSet, dictLookup, h, Ne.symm h]
  | cons hd tl ih =>
    obtain ⟨a, b⟩ := hd
    by_cases h2 : a = k2
    · subst h2
      by_cases h : k = a
      · subst h; simp [dictSet, dictLookup]
      · simp [dictSet, dictLookup, h, Ne.symm h]
    · by_cases h : a = k
      · subst h
        simp [dictSet, dictLookup, h2, Ne.symm h2]
      · simp [dictSet, dictLookup, h2, h, ih]

theorem mem_dictSet {K V : Type} [DecidableEq K] {k : K} {v : V}
    {l : List (K × V)} {p : K × V} (h : p ∈ dictSet k v l) : p = (k, v) ∨ p ∈ l := by
  induction l with
  | nil => simpa [dictSet] using h
  | cons hd tl ih =>
    obtain ⟨a, b⟩ := hd
    by_cases h2 : a = k
    · simp only [dictSet, if_pos h2] at h
      rcases List.mem_cons.1 h with h3 | h3
      · exact Or.inl h3
      · exact Or.inr (List.mem_cons_of_mem _ h3)
    · simp only [dictSet, if_neg h2] at h
      rcases List.mem_cons.1 h with h3 | h3
      · exact Or.inr (h3 ▸ List.mem_cons_self _ _)
      · rcases ih h3 with h4 | h4
        · exact Or.inl h4
        · exact Or.inr (List.mem_cons_of_mem _ h4)

theorem dictErase_sublist {K V : Type} [DecidableEq K] (k : K) (l : List (K × V)) :
    List.Sublist (dictErase k l) l := by
  induction l with
  | nil => simp [dictErase]
  | cons hd tl ih =>
    obtain ⟨a, b⟩ := hd
    by_cases h : a = k
    · simp [dictErase, h]
    · simpa [dictErase, h] using List.Sublist.cons₂ (a, b) ih

theorem mem_of_mem_dictErase {K V : Type} [DecidableEq K] {k : K}
    {l : List (K × V)} {p : K × V} (h : p ∈ dictErase k l) : p ∈ l :=
  (dictErase_sublist k l).mem h

theorem dictLookup_dictErase_ne {K V : Type} [DecidableEq K] {k k2 : K}
    (l : List (K × V)) (h : k ≠ k2) :
    dictLookup k (dictErase k2 l) = dictLookup k l := by
  induction l with
  | nil => simp [dictErase]
  | cons hd tl ih =>
    obtain ⟨a, b⟩ := hd
    by_cases h2 : a = k2
    · subst h2
      have hka : ¬ a = k := fun hh => h hh.symm
      simp [dictErase, dictLookup, hka]
    · by_cases h3 : a = k <;> simp [dictErase, dictLookup, h2, h3, h, ih]

theorem dictSet_eq_append {K V : Type} [DecidableEq K] {k : K} (v : V)
    {l : List (K × V)} (h : ∀ p ∈ l, p.1 ≠ k) : dictSet k v l = l ++ [(k, v)] := by
  induction l with
  | nil => simp [dictSet]
  | cons hd tl ih =>
    obtain ⟨a, b⟩ := hd
    have ha : a ≠ k := h (a, b) (List.mem_cons_self _ _)
    simp only [dictSet, if_neg ha, List.cons_append, List.cons.injEq, true_and]
    exact ih fun p hp => h p (List.mem_cons_of_mem _ hp)

theorem dictErase_append_single {K V : Type} [DecidableEq K] {k : K} (v : V)
    {l : List (K × V)} (h : ∀ p ∈ l, p.1 ≠ k) : dictErase k (l ++ [(k, v)]) = l := by
  induction l with
  | nil => simp [dictErase]
  | cons hd tl ih =>
    obtain ⟨a, b⟩ := hd
    have ha : a ≠ k := h (a, b) (List.mem_cons_self _ _)
    simp only [List.cons_append, dictErase, if_neg ha, List.cons.injEq, true_and]
    exact ih fun p hp => h p (List.mem_cons_of_mem _ hp)

theorem mem_keys_dictSet {K V : Type} [DecidableEq K] {k x : K} {v : V}
    {l : List (K × V)} (h : x ∈ (dictSet k v l).map Prod.fst) :
    x = k ∨ x ∈ l.map Prod.fst := by
  rcases List.mem_map.1 h with ⟨p, hp, hx⟩
  rcases mem_dictSet hp with h2 | h2
  · left; rw [← hx, h2]
  · right; exact hx ▸ List.mem_map_of_mem _ h2

theorem mem_values_dictSet {K V : Type} [DecidableEq K] {k : K} {x v : V}
    {l : List (K × V)} (h : x ∈ (dictSet k v l).map Prod.snd) :
    x = v ∨ x ∈ l.map Prod.snd := by
  rcases List.mem_map.1 h with ⟨p, hp, hx⟩
  rcases mem_dictSet hp with h2 | h2
  · left; rw [← hx, h2]
  · right; exact hx ▸ List.mem_map_of_mem _ h2

theorem keysNodup_dictSet {K V : Type} [DecidableEq K] (k : K) (v : V)
    {l : List (K × V)} (h : (l.map Prod.fst).Nodup) :
    ((dictSet k v l).map Prod.fst).Nodup := by
  induction l with
  | nil => simp [dictSet]
  | cons hd tl ih =>
    obtain ⟨a, b⟩ := hd
    simp only [List.map_cons, List.nodup_cons] at h
    by_cases h2 : a = k
    · subst h2
      simpa [dictSet, List.nodup_cons] using h
    · simp only [dictSet, if_neg h2, List.map_cons, List.nodup_cons]
      refine ⟨fun hmem => ?_, ih h.2⟩
      rcases mem_keys_dictSet hmem with h3 | h3
      · exact h2 h3
      · exact h.1 h3

theorem valuesNodup_dictSet {K V : Type} [DecidableEq K] (k : K) {v : V}
    {l : List (K × V)} (h : (l.map Prod.snd).Nodup) (hv : v ∉ l.map Prod.snd) :
    ((dictSet k v l).map Prod.snd).Nodup := by
  induction l with
  | nil => simp [dictSet]
  | cons hd tl ih =>
    obtain ⟨a, b⟩ := hd
    simp only [List.map_cons, List.nodup_cons] at h
    simp only [List.map_cons, List.mem_cons, not_or] at hv
    by_cases h2 : a = k
    · simp only [dictSet, if_pos h2, List.map_cons, List.nodup_cons]
      exact ⟨hv.2, h.2⟩
    · simp only [dictSet, if_neg h2, List.map_cons, List.nodup_cons]
      refine ⟨fun hmem => ?_, ih h.2 hv.2⟩
      rcases mem_values_dictSet hmem with h3 | h3
      · exact hv.1 h3.symm
      · exact h.1 h3

theorem key_ne_of_mem_dictErase {K V : Type} [DecidableEq K] {k : K}
    {l : List (K × V)} {p : K × V} (h : (l.map Prod.fst).Nodup)
    (hp : p ∈ dictErase k l) : p.1 ≠ k := by
  induction l with
  | nil => simp [dictErase] at hp
  | cons hd tl ih =>
    obtain ⟨a, b⟩ := hd
    simp only [List.map_cons, List.nodup_cons] at h
    by_cases h2 : a = k
    · subst h2
      simp only [dictErase, if_pos rfl] at hp
      intro hk
      exact h.1 (hk ▸ List.mem_map_of_mem Prod.fst hp)
    · simp only [dictErase, if_neg h2] at hp
      rcases List.mem_cons.1 hp with h3 | h3
      · rw [h3]; exact h2
      · exact ih h.2 h3

theorem eq_of_mem_snd_nodup {K V : Type} {l : List (K × V)} {p q : K × V}
    (h : (l.map Prod.snd).Nodup) (hp : p ∈ l) (hq : q ∈ l) (hpq : p.2 = q.2) :
    p = q := by
  induction l with
  | nil => simp at hp
  | cons hd tl ih =>
    simp only [List.map_cons, List.nodup_cons] at h
    rcases List.mem_cons.1 hp with hp2 | hp2 <;> rcases List.mem_cons.1 hq with hq2 | hq2
    · rw [hp2, hq2]
    · subst hp2
      exact absurd (hpq ▸ List.mem_map_of_mem Prod.snd hq2) h.1
    · subst hq2
      exact absurd (hpq ▸ List.mem_map_of_mem Prod.snd hp2) h.1
    · exact ih h.2 hp2 hq2

theorem mem_of_dictLookup_eq_some {K V : Type} [DecidableEq K] {k : K} {v : V}
    {l : List (K × V)} (h : dictLookup k l = some v) : (k, v) ∈ l := by
  induction l with
  | nil => simp [dictLookup] at h
  | cons hd tl ih =>
    obtain ⟨a, b⟩ := hd
    by_cases h2 : a = k
    · subst h2
      have hb : b = v := by simpa [dictLookup] using h
      subst hb
      exact List.mem_cons_self _ _
    · simp only [dictLookup, if_neg h2] at h
      exact List.mem_cons_of_mem _ (ih h)

theorem find?_append_of_none {α : Type} {pred : α → Bool} {l : List α}
    (l2 : List α) (h : ∀ p ∈ l, pred p = false) :
    List.find? pred (l ++ l2) = List.find? pred l2 := by
  induction l with
  | nil => simp
  | cons hd tl ih =>
    have h0 : pred hd = false := h hd (List.mem_cons_self _ _)
    simp only [List.cons_append, List.find?, h0]
    exact ih fun p hp => h p (List.mem_cons_of_mem _ hp)

/-! Registry invariant preservation. -/

theorem Inv_empty : Inv ConnectionManager.empty := by
  simp [Inv, ConnectionManager.empty]

theorem Inv_connect {m : ConnectionManager} (h : Inv m) (ws : Nat)
    (u : Option String) : Inv (m.connect ws u).2 := by
  obtain ⟨h1, h2, h3, h4, h5⟩ := h
  have hact : ∀ p ∈ dictSet m.next_id ws m.active_connections,
      p.1 < m.next_id + 1 := by
    intro p hp
    rcases mem_dictSet hp with h6 | h6
    · rw [h6]; exact Nat.lt_succ_self _
    · exact Nat.lt_succ_of_lt (h1 p h6)
  have hlook : ∀ c : Nat, (dictLookup c m.active_connections).isSome = true →
      (dictLookup c (dictSet m.next_id ws m.active_connections)).isSome = true := by
    intro c hc
    rw [dictLookup_dictSet]
    by_cases hcn : c = m.next_id <;> simp [hcn, hc]
  cases u with
  | none =>
    refine ⟨hact, fun p hp => Nat.lt_succ_of_lt (h2 p hp), h3, h4, ?_⟩
    exact fun p hp => hlook p.2 (h5 p hp)
  | some x =>
    have hfresh : m.next_id ∉ m.user_sessions.map Prod.snd := by
      intro hmem
      rcases List.mem_map.1 hmem with ⟨p, hp, hx⟩
      exact absurd (hx ▸ h2 p hp) (Nat.lt_irrefl _)
    refine ⟨hact, ?_, keysNodup_dictSet x m.next_id h3,
      valuesNodup_dictSet x h4 hfresh, ?_⟩
    · intro p hp
      rcases mem_dictSet hp with h6 | h6
      · rw [h6]; exact Nat.lt_succ_self _
      · exact Nat.lt_succ_of_lt (h2 p h6)
    · intro p hp
      rcases mem_dictSet hp with h6 | h6
      · rw [h6]
        simp [ConnectionManager.connect, dictLookup_dictSet]
      · exact hlook p.2 (h5 p h6)

theorem Inv_disconnect {m : ConnectionManager} (h : Inv m) (c : Nat) :
    Inv (m.disconnect c) := by
  obtain ⟨h1, h2, h3, h4, h5⟩ := h
  unfold ConnectionManager.disconnect
  by_cases hl : (dictLookup c m.active_connections).isSome = true
  · simp only [hl, if_true]
    have hactive : ∀ p ∈ dictErase c m.active_connections, p.1 < m.next_id :=
      fun p hp => h1 p (mem_of_mem_dictErase hp)
    cases hfind : m.user_sessions.find? (fun p => p.2 == c) with
    | none =>
      have hnone : ∀ p ∈ m.user_sessions, p.2 ≠ c := by
        intro p hp hpc
        have := List.find?_eq_none.1 hfind p hp
        simp [hpc] at this
      refine ⟨hactive, h2, h3, h4, ?_⟩
      intro p hp
      rw [dictLookup_dictErase_ne _ (hnone p hp)]
      exact h5 p hp
    | some q =>
      have hqmem : q ∈ m.user_sessions := List.mem_of_find?_eq_some hfind
      have hqc : q.2 = c := by
        have := List.find?_some hfind
        simpa using this
      refine ⟨hactive, fun p hp => h2 p (mem_of_mem_dictErase hp),
        h3.sublist (List.Sublist.map _ (dictErase_sublist _ _)),
        h4.sublist (List.Sublist.map _ (dictErase_sublist _ _)), ?_⟩
      intro p hp
      have hpm : p ∈ m.user_sessions := mem_of_mem_dictErase hp
      have hpc : p.2 ≠ c := by
        intro hpc
        have hpq : p = q := eq_of_mem_snd_nodup h4 hpm hqmem (hpc.trans hqc.symm)
        exact key_ne_of_mem_dictErase h3 hp (hpq ▸ rfl)
      rw [dictLookup_dictErase_ne _ hpc]
      exact h5 p hpm
  · simp only [hl, if_false]
    exact ⟨h1, h2, h3, h4, h5⟩

theorem Inv_applyOp {m : ConnectionManager} (h : Inv m) (op : RegOp) :
    Inv (applyOp m op) := by
  cases op with
  | connectOp ws u => exact Inv_connect h ws u
  | disconnectOp c => exact Inv_disconnect h c
  | sendPersonalOp ok c =>
    unfold applyOp ConnectionManager.send_personal_message
    by_cases hl : (dictLookup c m.active_connections).isSome = true
    · cases ok <;> simp [hl] <;> first | exact Inv_disconnect h c | exact h
    · simp [hl]; exact h
  | sendToUserOp ok u =>
    simp only [applyOp, ConnectionManager.send_to_user]
    cases hl : dictLookup u m.user_sessions with
    | none => simpa using h
    | some c =>
      simp only [ConnectionManager.send_personal_message]
      by_cases hl2 : (dictLookup c m.active_connections).isSome = true
      · cases ok
        · simpa [hl2] using Inv_disconnect h c
        · simpa [hl2] using h
      · simpa [hl2] using h

theorem Inv_foldl {m : ConnectionManager} (h : Inv m) (ops : List RegOp) :
    Inv (ops.foldl applyOp m) := by
  induction ops generalizing m with
  | nil => exact h
  | cons op rest ih => exact ih (Inv_applyOp h op)

theorem Inv_runOps (ops : List RegOp) : Inv (runOps ops) :=
  Inv_foldl Inv_empty ops

theorem key_ne_of_dictLookup_eq_none {K V : Type} [DecidableEq K] {k : K}
    {l : List (K × V)} (h : dictLookup k l = none) : ∀ p ∈ l, p.1 ≠ k := by
  induction l with
  | nil => simp
  | cons hd tl ih =>
    obtain ⟨a, b⟩ := hd
    by_cases h2 : a = k
    · simp [dictLookup, h2] at h
    · simp only [dictLookup, if_neg h2] at h
      intro p hp
      rcases List.mem_cons.1 hp with h3 | h3
      · rw [h3]; exact h2
      · exact ih h p h3

/-! Helper lemmas about the session receive loop. -/

theorem getElem?_cons3 {α : Type} (x y z : α) (l : List α) (n : Nat) :
    (x :: y :: z :: l)[n + 3]? = l[n]? := by
  have e1 : n + 3 = (n + 2) + 1 := rfl
  have e2 : n + 2 = (n + 1) + 1 := rfl
  rw [e1, List.getElem?_cons_succ, e2, List.getElem?_cons_succ,
    List.getElem?_cons_succ]

theorem sessionRun_userMessage_responses (gen : UserMessage → AIResponse)
    (u : Option String) (ds : List UserMessage) :
    (sessionRun gen u (ds.map Frame.userMessageFrame)).filterMap
        OutEnvelope.getAiResponse =
      ds.map (fun d => pipelineHandle gen (attachIdentity u d)) := by
  induction ds with
  | nil => rfl
  | cons d rest ih =>
    simp only [List.map_cons, sessionRun, List.flatMap_cons, processFrame,
      List.filterMap_append] at ih ⊢
    simp [OutEnvelope.getAiResponse, ih]

theorem sessionRun_userMessage_length (gen : UserMessage → AIResponse)
    (u : Option String) (ds : List UserMessage) :
    (sessionRun gen u (ds.map Frame.userMessageFrame)).length = 3 * ds.length := by
  induction ds with
  | nil => rfl
  | cons d rest ih =>
    simp only [List.map_cons, sessionRun, List.flatMap_cons, processFrame,
      List.length_append, List.length_cons, List.length_nil] at ih ⊢
    omega

/-! Helper lemmas about the streaming publisher loop. -/

theorem sse_statusUpdate_mem {u : String} {dis : Nat → Bool} {clock : Nat → Nat}
    {c fuel k t : Nat} {v : String}
    (h : SseEvent.statusUpdate k t v ∈ sseLoop u dis clock c fuel) :
    c < k ∧ dis (k - 1) = false ∧ v = u := by
  induction fuel generalizing c with
  | zero => simp [sseLoop] at h
  | succ n ih =>
    cases hd : dis c with
    | true => simp [sseLoop, hd] at h
    | false =>
      simp only [sseLoop, hd, Bool.false_eq_true, if_false] at h
      rcases List.mem_cons.1 h with h2 | h2
      · simp only [SseEvent.statusUpdate.injEq] at h2
        obtain ⟨hk, ht, hv⟩ := h2
        subst hk
        exact ⟨Nat.lt_succ_self c, by simpa using hd, hv⟩
      · obtain ⟨hk, hdis, hv⟩ := ih h2
        exact ⟨Nat.lt_of_succ_lt hk, hdis, hv⟩

theorem sse_statusUpdate_bound {u : String} {dis : Nat → Bool} {clock : Nat → Nat}
    {c fuel j k t : Nat} {v : String} (hj : dis j = true) (hcj : c ≤ j)
    (h : SseEvent.statusUpdate k t v ∈ sseLoop u dis clock c fuel) : k ≤ j := by
  induction fuel generalizing c with
  | zero => simp [sseLoop] at h
  | succ n ih =>
    cases hd : dis c with
    | true => simp [sseLoop, hd] at h
    | false =>
      have hcj2 : c < j := by
        rcases Nat.lt_or_ge c j with h3 | h3
        · exact h3
        · have : c = j := Nat.le_antisymm hcj h3
          rw [this, hj] at hd
          cases hd
      simp only [sseLoop, hd, Bool.false_eq_true, if_false] at h
      rcases List.mem_cons.1 h with h2 | h2
      · simp only [SseEvent.statusUpdate.injEq] at h2
        omega
      · exact ih (Nat.succ_le_of_lt hcj2) h2

theorem sse_counters_pairwise (u : String) (dis : Nat → Bool) (clock : Nat → Nat)
    (c fuel : Nat) :
    (∀ x ∈ sseCounters (sseLoop u dis clock c fuel), c < x) ∧
    List.Pairwise (· < ·) (sseCounters (sseLoop u dis clock c fuel)) := by
  induction fuel generalizing c with
  | zero => simp [sseLoop, sseCounters]
  | succ n ih =>
    cases hd : dis c with
    | true => simp [sseLoop, hd, sseCounters]
    | false =>
      obtain ⟨ihall, ihpw⟩ := ih (c := c + 1)
      simp only [sseLoop, hd, Bool.false_eq_true, if_false, sseCounters,
        List.filterMap_cons] at *
      refine ⟨?_, ?_⟩
      · intro x hx
        rcases List.mem_cons.1 hx with h2 | h2
        · rw [h2]; exact Nat.lt_succ_self c
        · exact Nat.lt_of_succ_lt (ihall x h2)
      · exact List.pairwise_cons.2 ⟨fun x hx => ihall x hx, ihpw⟩

theorem sessionRun_userMessage_trace (gen : UserMessage → AIResponse)
    (u : Option String) (ds : List UserMessage) (k : Nat) (hk : k < ds.length) :
    (sessionRun gen u (ds.map Frame.userMessageFrame))[3 * k]? =
        some (OutEnvelope.typing true) ∧
    (sessionRun gen u (ds.map Frame.userMessageFrame))[3 * k + 1]? =
        some (OutEnvelope.typing false) ∧
    ∃ d, ds[k]? = some d ∧
      (sessionRun gen u (ds.map Frame.userMessageFrame))[3 * k + 2]? =
        some (OutEnvelope.aiResponse (pipelineHandle gen (attachIdentity u d))) := by
  induction ds generalizing k with
  | nil => simp at hk
  | cons d rest ih =>
    have hstep : sessionRun gen u ((d :: rest).map Frame.userMessageFrame) =
        OutEnvelope.typing true :: OutEnvelope.typing false ::
        OutEnvelope.aiResponse (pipelineHandle gen (attachIdentity u d)) ::
        sessionRun gen u (rest.map Frame.userMessageFrame) := by
      simp [sessionRun, processFrame]
    cases k with
    | zero =>
      rw [hstep]
      refine ⟨by simp, by simp, d, by simp, by simp⟩
    | succ j =>
      have hj : j < rest.length := by
        simpa using Nat.lt_of_succ_lt_succ (by simpa using hk)
      obtain ⟨ha, hb, d2, hd2, hc⟩ := ih j hj
      rw [hstep]
      have e1 : 3 * (j + 1) = 3 * j + 3 := by omega
      have e2 : 3 * j + 3 + 1 = (3 * j + 1) + 3 := by omega
      have e3 : 3 * j + 3 + 2 = (3 * j + 2) + 3 := by omega
      rw [e1, e2, e3, getElem?_cons3, getElem?_cons3, getElem?_cons3]
      exact ⟨ha, hb, d2, by simpa using hd2, hc⟩

/-! Claim theorems. -/

/-- C1: on one session, a sequence of N inbound `user_message` envelopes,
processed one at a time in arrival order, yields exactly N `ai_response`
envelopes in the same relative order as the inputs (the `filterMap` and
`length` conjuncts), and the k-th inbound message's `typing(true)` (trace
index 3k) and `typing(false)` (index 3k+1) are both emitted before its
`ai_response` (index 3k+2). -/
theorem session_reply_ordering (gen : UserMessage → AIResponse)
    (u : Option String) (ds : List UserMessage) (k : Nat) (hk : k < ds.length) :
    (sessionRun gen u (ds.map Frame.userMessageFrame)).filterMap
        OutEnvelope.getAiResponse =
      ds.map (fun d => pipelineHandle gen (attachIdentity u d)) ∧
    (sessionRun gen u (ds.map Frame.userMessageFrame)).length = 3 * ds.length ∧
    (sessionRun gen u (ds.map Frame.userMessageFrame))[3 * k]? =
      some (OutEnvelope.typing true) ∧
    (sessionRun gen u (ds.map Frame.userMessageFrame))[3 * k + 1]? =
      some (OutEnvelope.typing false) ∧
    ∃ d, ds[k]? = some d ∧
      (sessionRun gen u (ds.map Frame.userMessageFrame))[3 * k + 2]? =
        some (OutEnvelope.aiResponse (pipelineHandle gen (attachIdentity u d))) := by
  obtain ⟨ha, hb, hc⟩ := sessionRun_userMessage_trace gen u ds k hk
  exact ⟨sessionRun_userMessage_responses gen u ds,
    sessionRun_userMessage_length gen u ds, ha, hb, hc⟩

/-- Witness for C1 at a concrete session: one inbound message, k = 0. -/
theorem session_reply_ordering_witness :
    0 < ([demoMsg] : List UserMessage).length ∧
    (sessionRun demoGen (some "u1") ([demoMsg].map Frame.userMessageFrame))[2]? =
      some (OutEnvelope.aiResponse (pipelineHandle demoGen
        (attachIdentity (some "u1") demoMsg))) := by
  refine ⟨by decide, ?_⟩
  have h := session_reply_ordering demoGen (some "u1") [demoMsg] 0 (by decide)
  obtain ⟨d, hd, hc⟩ := h.2.2.2.2
  have hdm : demoMsg = d := by simpa using hd
  simpa [← hdm] using hc

/-- C2: a frame whose processing raises (non-JSON input, or any other
exception while processing one inbound envelope) produces exactly one
`error` envelope — for a malformed frame, echoing the raw input — and the
session stays OPEN: the frames before and after it are processed
unchanged. -/
theorem session_error_isolation (gen : UserMessage → AIResponse)
    (u : Option String) (pre post : List Frame) (f : Frame)
    (hf : f.failing = true) :
    sessionRun gen u (pre ++ f :: post) =
      sessionRun gen u pre ++ processFrame gen u f ++ sessionRun gen u post ∧
    (processFrame gen u f).length = 1 ∧
    (∀ e ∈ processFrame gen u f, e.isError = true) ∧
    (∀ raw, f = Frame.notJson raw → processFrame gen u f =
      [OutEnvelope.errorEnv "잘못된 JSON 형식입니다" (some raw)]) := by
  refine ⟨by simp [sessionRun], ?_, ?_, ?_⟩ <;>
    cases f <;> simp_all [Frame.failing, processFrame, OutEnvelope.isError]

/-- Witness for C2: a malformed frame between two well-formed ones. -/
theorem session_error_isolation_witness :
    (Frame.notJson "oops").failing = true ∧
    (processFrame demoGen (some "u1") (Frame.notJson "oops")).length = 1 := by
  refine ⟨by decide, ?_⟩
  have h := session_error_isolation demoGen (some "u1") [Frame.systemPing]
    [Frame.userMessageFrame demoMsg] (Frame.notJson "oops") (by decide)
  exact h.2.1

/-- C3: registering a second connection for an identity that is already
associated with a live handle leaves `resolve_handle(identity)` pointing
only at the new handle; the superseded handle stays in the
handle→transport map with its transport unchanged (not closed, not
removed), merely unreachable via identity lookup. -/
theorem identity_supersession (m : ConnectionManager) (ws h1 : Nat)
    (u : String) (hInv : Inv m)
    (hres : dictLookup u m.user_sessions = some h1) :
    dictLookup u (m.connect ws (some u)).2.user_sessions =
      some (m.connect ws (some u)).1 ∧
    (m.connect ws (some u)).1 ≠ h1 ∧
    dictLookup h1 (m.connect ws (some u)).2.active_connections =
      dictLookup h1 m.active_connections ∧
    (dictLookup h1 m.active_connections).isSome = true := by
  obtain ⟨hc1, hc2, hc3, hc4, hc5⟩ := hInv
  have hmem : (u, h1) ∈ m.user_sessions := mem_of_dictLookup_eq_some hres
  have hlt : h1 < m.next_id := hc2 _ hmem
  refine ⟨?_, ?_, ?_, hc5 _ hmem⟩
  · simp [ConnectionManager.connect, dictLookup_dictSet]
  · simp only [ConnectionManager.connect]
    omega
  · simp only [ConnectionManager.connect]
    rw [dictLookup_dictSet]
    simp [Nat.ne_of_lt hlt]

/-- Witness for C3 at the reachable one-connection state. -/
theorem identity_supersession_witness :
    Inv (⟨[(0, 5)], [("u1", 0)], 1⟩ : ConnectionManager) ∧
    dictLookup "u1" ((⟨[(0, 5)], [("u1", 0)], 1⟩ :
      ConnectionManager).connect 6 (some "u1")).2.user_sessions = some 1 := by
  refine ⟨by decide, ?_⟩
  have h := identity_supersession (⟨[(0, 5)], [("u1", 0)], 1⟩ :
    ConnectionManager) 6 0 "u1" (by decide) (by decide)
  exact h.1

/-- C9: in every `ConnectionManager` state reachable from the empty
registry by connect / disconnect / send operations (including failed sends
that trigger disconnection and identity supersession), every connection id
stored as a value of `user_sessions` is a live key of
`active_connections`. -/
theorem registry_no_dangling_identity (ops : List RegOp) (p : String × Nat)
    (hp : p ∈ (runOps ops).user_sessions) :
    (dictLookup p.2 (runOps ops).active_connections).isSome = true :=
  (Inv_runOps ops).2.2.2.2 p hp

/-- Witness for C9 on a run with supersession and a failed send. -/
theorem registry_no_dangling_identity_witness :
    ("u1", 1) ∈ (runOps [RegOp.connectOp 5 (some "u1"),
      RegOp.connectOp 6 (some "u1"),
      RegOp.sendPersonalOp false 0]).user_sessions ∧
    (dictLookup 1 (runOps [RegOp.connectOp 5 (some "u1"),
      RegOp.connectOp 6 (some "u1"),
      RegOp.sendPersonalOp false 0]).active_connections).isSome = true := by
  refine ⟨by decide, ?_⟩
  exact registry_no_dangling_identity [RegOp.connectOp 5 (some "u1"),
    RegOp.connectOp 6 (some "u1"), RegOp.sendPersonalOp false 0]
    ("u1", 1) (by decide)

/-- C10: the session's path identity overwrites whatever `user_id` the
inbound payload carried, so the message handed to the generator always
carries the session identity, and two payloads differing only in their
`user_id` field produce identical processed messages. -/
theorem identity_attribution :
    (∀ (u : Option String) (d : UserMessage), (attachIdentity u d).user_id = u) ∧
    (∀ (u : Option String) (d : UserMessage) (x y : Option String),
      attachIdentity u { d with user_id := x } =
        attachIdentity u { d with user_id := y }) :=
  ⟨fun _ _ => rfl, fun _ _ _ _ => rfl⟩

/-- C4 counterexample: from the reachable state holding one connection for
identity `u1`, registering a second connection for `u1` and immediately
unregistering the returned handle drops the identity count from 1 to 0
(supersession orphans the first mapping, and the disconnect then removes
the identity entirely), so the snapshot counts are not restored. -/
theorem register_unregister_roundtrip_cex :
    ¬ ((get_connection_status (((⟨[(0, 5)], [("u1", 0)], 1⟩ :
          ConnectionManager).connect 6 (some "u1")).2.disconnect
          ((⟨[(0, 5)], [("u1", 0)], 1⟩ : ConnectionManager).connect 6
            (some "u1")).1)).2.1 =
        (get_connection_status (⟨[(0, 5)], [("u1", 0)], 1⟩ :
          ConnectionManager)).2.1) := by decide

/-- C4 (amended): registering a connection and immediately unregistering
the returned handle restores both registry maps — hence both snapshot
counts — provided the supplied identity, when present, was not already
registered (without that proviso supersession loses the old identity
mapping, see the counterexample). -/
theorem register_unregister_roundtrip_fresh (m : ConnectionManager) (ws : Nat)
    (u : Option String) (hInv : Inv m)
    (hfresh : ∀ x, u = some x → dictLookup x m.user_sessions = none) :
    ((m.connect ws u).2.disconnect (m.connect ws u).1).active_connections =
      m.active_connections ∧
    ((m.connect ws u).2.disconnect (m.connect ws u).1).user_sessions =
      m.user_sessions ∧
    (get_connection_status ((m.connect ws u).2.disconnect
      (m.connect ws u).1)).1 = (get_connection_status m).1 ∧
    (get_connection_status ((m.connect ws u).2.disconnect
      (m.connect ws u).1)).2.1 = (get_connection_status m).2.1 := by
  obtain ⟨hc1, hc2, hc3, hc4, hc5⟩ := hInv
  have hkeys : ∀ p ∈ m.active_connections, p.1 ≠ m.next_id :=
    fun p hp => Nat.ne_of_lt (hc1 p hp)
  have hlook : (dictLookup m.next_id (dictSet m.next_id ws
      m.active_connections)).isSome = true := by
    rw [dictLookup_dictSet]; simp
  have hactive2 : dictErase m.next_id (dictSet m.next_id ws
      m.active_connections) = m.active_connections := by
    rw [dictSet_eq_append ws hkeys]; exact dictErase_append_single ws hkeys
  have hvals : ∀ p ∈ m.user_sessions, (p.2 == m.next_id) = false := by
    intro p hp
    simpa using Nat.ne_of_lt (hc2 p hp)
  cases u with
  | none =>
    have hfind : m.user_sessions.find? (fun p => p.2 == m.next_id) = none :=
      List.find?_eq_none.2 fun p hp => by simp [hvals p hp]
    simp only [ConnectionManager.connect, ConnectionManager.disconnect, hlook,
      if_true, hfind, hactive2, get_connection_status]
    refine ⟨?_, ?_, ?_, ?_⟩ <;> trivial
  | some x =>
    have hxkeys : ∀ p ∈ m.user_sessions, p.1 ≠ x :=
      key_ne_of_dictLookup_eq_none (hfresh x rfl)
    have hsess1 : dictSet x m.next_id m.user_sessions =
        m.user_sessions ++ [(x, m.next_id)] := dictSet_eq_append _ hxkeys
    have hfind : (dictSet x m.next_id m.user_sessions).find?
        (fun p => p.2 == m.next_id) = some (x, m.next_id) := by
      rw [hsess1, find?_append_of_none _ (fun p hp => hvals p hp)]
      simp [List.find?]
    have hsess2 : dictErase x (dictSet x m.next_id m.user_sessions) =
        m.user_sessions := by
      rw [hsess1]; exact dictErase_append_single _ hxkeys
    simp only [ConnectionManager.connect, ConnectionManager.disconnect, hlook,
      if_true, hfind, hsess2, hactive2, get_connection_status]
    refine ⟨?_, ?_, ?_, ?_⟩ <;> trivial

/-- Witness for the amended C4: round trip with a fresh identity on the
reachable one-connection state. -/
theorem register_unregister_roundtrip_fresh_witness :
    Inv (⟨[(0, 5)], [("u1", 0)], 1⟩ : ConnectionManager) ∧
    (((⟨[(0, 5)], [("u1", 0)], 1⟩ : ConnectionManager).connect 6
        (some "u2")).2.disconnect ((⟨[(0, 5)], [("u1", 0)], 1⟩ :
        ConnectionManager).connect 6 (some "u2")).1).user_sessions =
      (⟨[(0, 5)], [("u1", 0)], 1⟩ : ConnectionManager).user_sessions := by
  refine ⟨by decide, ?_⟩
  have h := register_unregister_roundtrip_fresh
    (⟨[(0, 5)], [("u1", 0)], 1⟩ : ConnectionManager) 6 (some "u2")
    (by decide)
    (fun x hx => by
      have hx2 : x = "u2" := by simpa using hx.symm
      subst hx2; decide)
  exact h.2.1

/-- C5: with the client-side liveness probe as an oracle, the first
emitted event is `connected` carrying the identity and the current time;
every `status_update` carries a strictly increasing per-subscription
counter and is emitted only when the probe checked immediately before it
reported the client still connected; and once the probe reports the
client closed no later counter is ever emitted. -/
theorem sse_stream_spec (u : String) (dis : Nat → Bool) (clock : Nat → Nat)
    (fuel : Nat) :
    (event_generator u dis clock fuel).head? =
      some (SseEvent.connected u (clock 0)) ∧
    List.Pairwise (· < ·) (sseCounters (event_generator u dis clock fuel)) ∧
    (∀ k t v, SseEvent.statusUpdate k t v ∈ event_generator u dis clock fuel →
      dis (k - 1) = false) ∧
    (∀ j, dis j = true → ∀ k t v,
      SseEvent.statusUpdate k t v ∈ event_generator u dis clock fuel →
      k ≤ j) := by
  refine ⟨rfl, ?_, ?_, ?_⟩
  · have h := (sse_counters_pairwise u dis clock 0 fuel).2
    simpa [event_generator, sseCounters] using h
  · intro k t v hm
    rcases List.mem_cons.1 hm with h2 | h2
    · simp at h2
    · exact (sse_statusUpdate_mem h2).2.1
  · intro j hj k t v hm
    rcases List.mem_cons.1 hm with h2 | h2
    · simp at h2
    · exact sse_statusUpdate_bound hj (Nat.zero_le j) h2

/-- Witness for C5: a subscription whose client closes at the third probe
emits `status_update` 1 (and nothing past counter 2). -/
theorem sse_stream_spec_witness :
    (fun n => decide (2 ≤ n)) 2 = true ∧
    SseEvent.statusUpdate 1 1 "u1" ∈
      event_generator "u1" (fun n => decide (2 ≤ n)) (fun n => n) 10 ∧
    (1 : Nat) ≤ 2 := by
  refine ⟨by decide, by decide, ?_⟩
  exact (sse_stream_spec "u1" (fun n => decide (2 ≤ n)) (fun n => n) 10).2.2.2
    2 (by decide) 1 1 "u1" (by decide)

/-- C6 counterexample: the handle step is a bare delegation, so a
generator that leaves `processing_time` unset yields a response whose
`processing_time` is still unset — the pipeline performs no fill (and no
elapsed-time measurement exists at the call site to fill it from). -/
theorem pipeline_no_timing_fill_cex :
    (pipelineHandle genNoTiming demoMsg).processing_time_ms = none := rfl

/-- C6 (amended): the handle step returns the generator's result
unchanged — it measures nothing and fills nothing — and the wired-in mock
generator itself always sets `processing_time_ms` to the constant 500,
matching its simulated 0.5-second delay. -/
theorem pipeline_delegation :
    (∀ (gen : UserMessage → AIResponse) (m : UserMessage),
      pipelineHandle gen m = gen m) ∧
    (∀ (freshId : String) (now : Nat) (m : UserMessage),
      (generate_ai_response freshId now m).processing_time_ms = some 500) := by
  refine ⟨fun _ _ => rfl, fun freshId now m => ?_⟩
  simp only [generate_ai_response]
  repeat' split
  all_goals rfl

/-- C7: every constructible `ActionBlock` carries a `type` discriminant
drawn from the fourteen enumerated action kinds, the discriminant
determines the variant shape (two blocks with equal discriminants are the
same variant), and every block carried in a generated `ai_response` has
its discriminant in the enumeration. -/
theorem actionblock_tagged_union :
    (∀ a : ActionBlock, a.actionType ∈ actionTypeAll) ∧
    (∀ a b : ActionBlock, a.actionType = b.actionType →
      a.variantIndex = b.variantIndex) ∧
    (∀ (freshId : String) (now : Nat) (m : UserMessage),
      ∀ a ∈ (generate_ai_response freshId now m).actions,
        a.actionType ∈ actionTypeAll) := by
  refine ⟨fun a => ?_, fun a b h => ?_, fun freshId now m a ha => ?_⟩
  · cases a <;> simp [ActionBlock.actionType, actionTypeAll]
  · cases a <;> cases b <;>
      simp_all [ActionBlock.actionType, ActionBlock.variantIndex]
  · simp only [generate_ai_response] at ha
    repeat' split at ha
    all_goals
      simp only [List.mem_singleton] at ha
    all_goals
      subst ha
    all_goals
      simp [ActionBlock.actionType, actionTypeAll]

/-- Witness for C7 on the block emitted for a music-keyword message. -/
theorem actionblock_tagged_union_witness :
    musicBlock ∈ (generate_ai_response "m-1" 0 demoMusicMsg).actions ∧
    musicBlock.actionType ∈ actionTypeAll := by
  refine ⟨by decide, ?_⟩
  exact actionblock_tagged_union.2.2 "m-1" 0 demoMusicMsg musicBlock (by decide)

/-- C8: an inbound message whose lowered content contains a music keyword
produces a response whose `actions` is exactly one block, of discriminant
`music`, with a non-empty `song_title`. -/
theorem music_keyword_response (freshId : String) (now : Nat)
    (m : UserMessage)
    (h : (strContains (strLower m.content) "음악" ||
      strContains (strLower m.content) "노래") = true) :
    (generate_ai_response freshId now m).actions = [musicBlock] ∧
    musicBlock.actionType = ActionType.music ∧
    musicBlock.songTitle = some "좋은 음악" ∧
    ("좋은 음악" : String) ≠ "" := by
  refine ⟨?_, rfl, rfl, by decide⟩
  simp [generate_ai_response, h, musicBlock]

/-- Witness for C8 on a concrete message containing a music keyword. -/
theorem music_keyword_response_witness :
    (strContains (strLower demoMusicMsg.content) "음악" ||
      strContains (strLower demoMusicMsg.content) "노래") = true ∧
    (generate_ai_response "m-1" 0 demoMusicMsg).actions = [musicBlock] := by
  refine ⟨by decide, ?_⟩
  exact (music_keyword_response "m-1" 0 demoMusicMsg (by decide)).1

end UnnamedProject
